import Mathlib
/-
Verification development for the `expan` experiment-analysis core
(`expan/core/experiment.py`).

Shallow embedding conventions:
* Machine floats are modelled as exact rationals; a float `NaN` (numpy
  missing value) is modelled as `none` in `Option ℚ`, so a cell value is
  `Val := Option ℚ`.  Non-finite results of division by zero are likewise
  collapsed to `none`.
* A pandas data frame is an association list from column name to a column
  of values; a column is either a string column (the `variant` label
  column) or a numeric column.
* Fallible Python code (constructor validation, `eval` of formulas,
  unknown delta methods) is modelled with `Except String`.
* The statistics and binning collaborators (`statx.make_delta`,
  `es.make_*`, `binmodule.create_binning`) are external to the analysed
  module; they are modelled as parameters (an `Externals` record of
  worker factories, an abstract bin-label function).
-/
namespace Expan
/-- A float cell: `none` models numpy `NaN` (missing), `some q` a finite value. -/
abbrev Val := Option ℚ
/-- Elementwise float addition; `NaN` propagates. -/
def optAdd : Val → Val → Val
  | some a, some b => some (a + b)
  | _, _ => none
/-- Elementwise float subtraction; `NaN` propagates. -/
def optSub : Val → Val → Val
  | some a, some b => some (a - b)
  | _, _ => none
/-- Elementwise float multiplication; `NaN` propagates. -/
def optMul : Val → Val → Val
  | some a, some b => some (a * b)
  | _, _ => none
/-- Elementwise float division; `NaN` propagates and a zero divisor
(whose float result is non-finite) is collapsed to `none`. -/
def optDiv : Val → Val → Val
  | some a, some b => if b = 0 then none else some (a / b)
  | _, _ => none
/-- A data-frame column: the `variant` column holds strings, KPI columns
hold floats. -/
inductive ColData where
  | strCol (xs : List String)
  | numCol (xs : List Val)
  deriving DecidableEq
/-- A pandas data frame: association list from column name to column,
in column order. -/
abbrev DataFrame := List (String × ColData)
/-- Generic dict/column upsert: replace the value of an existing key in
place, otherwise append the new pair at the end (Python dict / pandas
`df.loc[:, name] = value` semantics). -/
def dictInsert {δ : Type} (l : List (String × δ)) (k : String) (v : δ) :
    List (String × δ) :=
  if (l.lookup k).isSome then
    l.map (fun p => if p.1 = k then (k, v) else p)
  else
    l ++ [(k, v)]
/-- `name in data` for a data frame: column membership. -/
def hasCol (df : DataFrame) (n : String) : Bool :=
  (df.lookup n).isSome
/-- The numeric column of the given name; `[]` when absent or non-numeric
(every use below is guarded by the constructor's column validation, where
Python would raise a `KeyError` instead). -/
def numColD (df : DataFrame) (n : String) : List Val :=
  match df.lookup n with
  | some (ColData.numCol xs) => xs
  | _ => []
/-- The `variant` label column; `[]` when absent (guarded by validation). -/
def variantColumn (df : DataFrame) : List String :=
  match df.lookup "variant" with
  | some (ColData.strCol xs) => xs
  | _ => []
/-- `df.loc[:, n] = c`: overwrite an existing column or append a new one. -/
def setCol (df : DataFrame) (n : String) (c : ColData) : DataFrame :=
  dictInsert df n c
/-- Worker for `uniqueFirst`: keep elements not seen before. -/
def uniqueFirstAux {γ : Type} [DecidableEq γ] : List γ → List γ → List γ
  | _, [] => []
  | seen, a :: l =>
    if a ∈ seen then uniqueFirstAux seen l
    else a :: uniqueFirstAux (a :: seen) l
/-- `pandas.unique`: distinct values in first-occurrence order (also used
as the deterministic model of Python's `list(set(...))`, whose claims
below depend only on membership). -/
def uniqueFirst {γ : Type} [DecidableEq γ] (l : List γ) : List γ :=
  uniqueFirstAux [] l
/-! ### The KPI-name regular expression

The constructor uses the pattern `([a-zA-Z][0-9a-zA-Z_]*)` in two ways:
`re.findall` collects every identifier occurring in a formula (to extend
the required-column set), and `re.sub(pattern + '/', '', formula)` deletes
every occurrence of an identifier directly followed by a slash (to record
the "reference KPI" of a derived KPI).  Both are leftmost, non-overlapping
scans; since `/` is not an identifier character, a match at a position
succeeds exactly when the maximal identifier run starting there is
followed by the required context, and no match can start strictly inside
a failed run (any inner start yields the same run end).  The scanners
below implement exactly that, with a step-count fuel (one step consumes at
least one character, so `length + 1` steps suffice) to keep them
structurally recursive. -/
/-- A character matched by `[0-9a-zA-Z_]`. -/
def identChar (c : Char) : Bool :=
  c.isAlpha || c.isDigit || c = '_'
/-- Fuelled scanner for `re.findall('([a-zA-Z][0-9a-zA-Z_]*)', s)`. -/
def findIdentsAux : ℕ → List Char → List String
  | 0, _ => []
  | _, [] => []
  | fuel + 1, c :: rest =>
    if c.isAlpha then
      String.mk ((c :: rest).takeWhile identChar)
        :: findIdentsAux fuel ((c :: rest).dropWhile identChar)
    else
      findIdentsAux fuel rest
/-- All identifiers occurring in a formula, in occurrence order
(`re.findall` of the KPI-name pattern). -/
def findIdents (s : String) : List String :=
  findIdentsAux (s.length + 1) s.data
/-- Fuelled scanner for `re.sub('([a-zA-Z][0-9a-zA-Z_]*)/', '', s)`:
delete every identifier that is directly followed by a slash, together
with that slash. -/
def stripRefAux : ℕ → List Char → List Char
  | 0, l => l
  | _, [] => []
  | fuel + 1, c :: rest =>
    if c.isAlpha then
      match (c :: rest).dropWhile identChar with
      | [] => (c :: rest).takeWhile identChar
      | a :: after =>
        if a = '/' then stripRefAux fuel after
        else (c :: rest).takeWhile identChar ++ stripRefAux fuel (a :: after)
    else
      c :: stripRefAux fuel rest
/-- `re.sub(kpiNamePattern + '/', '', formula)`: what `__init__` records
as the reference KPI of a derived KPI. -/
def stripRefSub (s : String) : String :=
  String.mk (stripRefAux (s.length + 1) s.data)
/-! ### Formulas

`__init__` evaluates each derived-KPI formula with
`eval(re.sub(kpiNamePattern, r'self.data.\1.astype(float)', formula))`:
every identifier token is replaced by the corresponding column and the
resulting arithmetic expression is evaluated column-wise.  We model this
by parsing the formula (identifier and number tokens, `+ - * /` with
Python's precedence, parentheses) and evaluating the tree over the data
frame, vectorized per row. -/
inductive Tok where
  | ident (s : String)
  | num (n : ℕ)
  | plus | minus | star | slash | lparen | rparen
  deriving DecidableEq
/-- Fuelled tokenizer (each step consumes at least one character). -/
def tokenizeAux : ℕ → List Char → Except String (List Tok)
  | 0, _ => .error "tokenizer ran out of fuel"
  | _, [] => .ok []
  | fuel + 1, c :: rest =>
    if c = ' ' then tokenizeAux fuel rest
    else if c.isAlpha then do
      let ts ← tokenizeAux fuel ((c :: rest).dropWhile identChar)
      .ok (Tok.ident (String.mk ((c :: rest).takeWhile identChar)) :: ts)
    else if c.isDigit then do
      let ts ← tokenizeAux fuel ((c :: rest).dropWhile Char.isDigit)
      .ok (Tok.num (((c :: rest).takeWhile Char.isDigit).foldl
            (fun n d => 10 * n + (d.toNat - '0'.toNat)) 0) :: ts)
    else if c = '+' then do let ts ← tokenizeAux fuel rest; .ok (Tok.plus :: ts)
    else if c = '-' then do let ts ← tokenizeAux fuel rest; .ok (Tok.minus :: ts)
    else if c = '*' then do let ts ← tokenizeAux fuel rest; .ok (Tok.star :: ts)
    else if c = '/' then do let ts ← tokenizeAux fuel rest; .ok (Tok.slash :: ts)
    else if c = '(' then do let ts ← tokenizeAux fuel rest; .ok (Tok.lparen :: ts)
    else if c = ')' then do let ts ← tokenizeAux fuel rest; .ok (Tok.rparen :: ts)
    else .error "unsupported character in formula"
/-- Abstract syntax of an arithmetic formula over column names. -/
inductive FExpr where
  | var (s : String)
  | lit (n : ℕ)
  | add (a b : FExpr)
  | sub (a b : FExpr)
  | mul (a b : FExpr)
  | div (a b : FExpr)
  deriving DecidableEq
/-- Fuelled precedence parser.  `level` 0 parses an additive expression,
1 a multiplicative one, 2 an atom; levels 3 and 4 are the left-associative
continuation loops for `+ -` and `* /`, threading the parsed prefix
through `acc`. -/
def parseLevel : ℕ → ℕ → FExpr → List Tok → Except String (FExpr × List Tok)
  | 0, _, _, _ => .error "parser ran out of fuel"
  | fuel + 1, 0, acc, toks => do
    let (lhs, rest) ← parseLevel fuel 1 acc toks
    parseLevel fuel 3 lhs rest
  | fuel + 1, 1, acc, toks => do
    let (lhs, rest) ← parseLevel fuel 2 acc toks
    parseLevel fuel 4 lhs rest
  | _ + 1, 2, _, Tok.ident s :: rest => .ok (FExpr.var s, rest)
  | _ + 1, 2, _, Tok.num n :: rest => .ok (FExpr.lit n, rest)
  | fuel + 1, 2, acc, Tok.lparen :: rest => do
    let (e, rest2) ← parseLevel fuel 0 acc rest
    match rest2 with
    | Tok.rparen :: rest3 => .ok (e, rest3)
    | _ => .error "expected closing parenthesis"
  | _ + 1, 2, _, _ => .error "expected identifier, number or parenthesis"
  | fuel + 1, 3, acc, Tok.plus :: rest => do
    let (rhs, rest2) ← parseLevel fuel 1 acc rest
    parseLevel fuel 3 (FExpr.add acc rhs) rest2
  | fuel + 1, 3, acc, Tok.minus :: rest => do
    let (rhs, rest2) ← parseLevel fuel 1 acc rest
    parseLevel fuel 3 (FExpr.sub acc rhs) rest2
  | _ + 1, 3, acc, toks => .ok (acc, toks)
  | fuel + 1, 4, acc, Tok.star :: rest => do
    let (rhs, rest2) ← parseLevel fuel 2 acc rest
    parseLevel fuel 4 (FExpr.mul acc rhs) rest2
  | fuel + 1, 4, acc, Tok.slash :: rest => do
    let (rhs, rest2) ← parseLevel fuel 2 acc rest
    parseLevel fuel 4 (FExpr.div acc rhs) rest2
  | _ + 1, 4, acc, toks => .ok (acc, toks)
  | _ + 1, _, _, _ => .error "internal parser level"
/-- Parse a formula string into an arithmetic expression tree. -/
def parseFormula (s : String) : Except String FExpr := do
  let toks ← tokenizeAux (s.length + 1) s.data
  let (e, rest) ← parseLevel (10 * (toks.length + 3)) 0 (FExpr.lit 0) toks
  match rest with
  | [] => .ok e
  | _ => .error "trailing tokens in formula"
/-- Number of rows of a data frame (length of its first column; all
columns of a well-formed frame have the same length). -/
def colLength : ColData → ℕ
  | ColData.strCol xs => xs.length
  | ColData.numCol xs => xs.length
/-- Number of rows (length of the first column). -/
def nrows (df : DataFrame) : ℕ :=
  match df with
  | [] => 0
  | (_, c) :: _ => colLength c
/-- Column-wise evaluation of a formula tree over a data frame: each
variable is the column of that name (`self.data.<name>.astype(float)`),
numeric literals broadcast, and arithmetic is elementwise with `NaN`
propagation. -/
def evalFExpr (df : DataFrame) : FExpr → Except String (List Val)
  | FExpr.var s =>
    match df.lookup s with
    | some (ColData.numCol xs) => .ok xs
    | some (ColData.strCol _) => .error ("column " ++ s ++ " is not numeric")
    | none => .error ("no column " ++ s)
  | FExpr.lit n => .ok (List.replicate (nrows df) (some (n : ℚ)))
  | FExpr.add a b => do
    let xs ← evalFExpr df a
    let ys ← evalFExpr df b
    .ok (List.zipWith optAdd xs ys)
  | FExpr.sub a b => do
    let xs ← evalFExpr df a
    let ys ← evalFExpr df b
    .ok (List.zipWith optSub xs ys)
  | FExpr.mul a b => do
    let xs ← evalFExpr df a
    let ys ← evalFExpr df b
    .ok (List.zipWith optMul xs ys)
  | FExpr.div a b => do
    let xs ← evalFExpr df a
    let ys ← evalFExpr df b
    .ok (List.zipWith optDiv xs ys)
/-- `eval(re.sub(kpiNamePattern, r'self.data.\1.astype(float)', formula))`:
parse the formula and evaluate it column-wise over the data frame. -/
def evalPyFormula (formula : String) (df : DataFrame) : Except String (List Val) := do
  let e ← parseFormula formula
  evalFExpr df e
/-! ### Experiment construction (`Experiment.__init__`) -/
/-- Experiment metadata: an opaque string mapping (copied at construction,
otherwise unused by the behaviour under study). -/
abbrev Metadata := List (String × String)
/-- The attributes `__init__` assigns (lines 51-62 of the source), in
order.  `sga`, `trend` and `feature_check` dereference attributes that do
not appear here. -/
structure Experiment where
  data : DataFrame
  metadata : Metadata
  reportKpiNames : List String
  derivedKpis : List (String × String)
  variantNames : List String
  controlVariantName : String
  referenceKpis : List (String × String)
  deriving DecidableEq
/-- Modelled from the spec: `getColumnNamesByType(data, np.float64)` from
`expan.core.util` is not among the provided sources; the spec says the
report-KPI list "defaults to all floating-point columns". -/
def floatColumnNames (df : DataFrame) : List String :=
  df.filterMap (fun p =>
    match p.2 with
    | ColData.numCol _ => some p.1
    | _ => none)
/-- The required-column set of `__init__`:
`(set(reportKpiNames) | {'entity', 'variant'}) - set(derivedKpiNames)`,
then unioned with every identifier found in any derived-KPI formula.
Python iterates a set in unspecified order; the model fixes
first-occurrence order, which the claims (membership, "some absent column
is named") do not depend on. -/
def requiredColumnNames (report : List String) (derived : List (String × String)) :
    List String :=
  let derivedNames := derived.map Prod.fst
  uniqueFirst
    ((report ++ ["entity", "variant"]).filter (fun c => !(derivedNames.contains c))
      ++ derived.flatMap (fun p => findIdents p.2))
/-- One iteration of the derived-KPI loop (source lines 60-62): evaluate
the formula against the *current* data frame, store it as a column, and
record the slash-stripped formula as the reference KPI. -/
def derivedStep (e : Experiment) (p : String × String) : Except String Experiment := do
  let col ← evalPyFormula p.2 e.data
  .ok { e with
        data := setCol e.data p.1 (ColData.numCol col),
        referenceKpis := dictInsert e.referenceKpis p.1 (stripRefSub p.2) }
/-- The body of `__init__` once the report-KPI default has been resolved:
compute the required columns, raise on the first absent one (no attribute
of the object has been assigned at that point), then assign the
attributes and run the derived-KPI loop. -/
def mkExperimentCore (controlVariantName : String) (data : DataFrame)
    (metadata : Metadata) (reportKpiNames : List String)
    (derivedKpis : List (String × String)) : Except String Experiment :=
  match (requiredColumnNames reportKpiNames derivedKpis).find?
      (fun c => !(hasCol data c)) with
  | some c => .error ("No column " ++ c ++ " provided")
  | none =>
    List.foldlM derivedStep
      { data := data
        metadata := metadata
        reportKpiNames := reportKpiNames
        derivedKpis := derivedKpis
        variantNames := uniqueFirst (variantColumn data)
        controlVariantName := controlVariantName
        referenceKpis := [] }
      derivedKpis
/-- `Experiment.__init__(controlVariantName, data, metadata,
reportKpiNames, derivedKpis)`.  A raised `ValueError` (missing column) or a
failing formula evaluation is an `Except.error`; in either case no
`Experiment` value is produced.  A derived KPI is a pair
`(name, formula)`. -/
def mkExperiment (controlVariantName : String) (data : DataFrame)
    (metadata : Metadata) (reportKpiNamesOpt : Option (List String))
    (derivedKpis : List (String × String)) : Except String Experiment :=
  -- `reportKpiNames or getColumnNamesByType(...)`: None and [] are falsy
  mkExperimentCore controlVariantName data metadata
    (match reportKpiNamesOpt with
     | none => floatColumnNames data
     | some [] => floatColumnNames data
     | some l => l)
    derivedKpis
/-! ### KPI access and weights -/
/-- `self.data.reset_index().set_index('variant').loc[variant, name]`:
the values of column `name` on the rows whose variant label is `variant`,
in row order.  (For a variant label absent from the data, Python's `.loc`
raises a `KeyError`; the model returns `[]`, and every theorem below that
touches this case assumes the spec's §3 invariant that the queried variant
is among the discovered variants.) -/
def getKPIbyNameAndVariant (e : Experiment) (name variant : String) : List Val :=
  (List.zip (variantColumn e.data) (numColD e.data name)).filterMap
    (fun p => if p.1 = variant then some p.2 else none)
/-- `np.nansum(x)`: sum treating `NaN` as 0. -/
def nansum (x : List Val) : ℚ :=
  (x.filterMap id).sum
/-- The value `_getWeights` returns: the Python float `1.0` (broadcast
no-op) or a weight vector. -/
inductive Weights where
  | one
  | vec (w : List Val)
  deriving DecidableEq
/-- `Experiment._getWeights(kpi, variant)` (source lines 84-91).  (In the
degenerate case `nansum x = 0` the Python quotient is non-finite and
propagates; ℚ division by zero is 0, a modelling convention shared by the
spec-side `weightSpecification`, so the comparison is unaffected.) -/
def getWeights (e : Experiment) (kpi variant : String) : Weights :=
  match e.referenceKpis.lookup kpi with
  | none => Weights.one
  | some referenceKpi =>
    let x := getKPIbyNameAndVariant e referenceKpi variant
    let zerosAndNans :=
      (x.filter (fun o => o = some 0)).length + (x.filter (fun o => o.isNone)).length
    let nonZeros : ℕ := x.length - zerosAndNans
    Weights.vec (x.map (Option.map (fun q => ((nonZeros : ℚ) / nansum x) * q)))
/-- The §3 weight definition, written from the spec's words: for a KPI
with reference KPI `r` and variant `v`, with `x` the reference-KPI values
of `v`'s rows, the weight is
`(count(x ≠ 0 and not missing) / sum(x, missing as 0)) * x`, elementwise;
a KPI without a reference KPI has weight `1.0`. -/
def weightSpecification (e : Experiment) (kpi variant : String) : Weights :=
  match e.referenceKpis.lookup kpi with
  | none => Weights.one
  | some r =>
    let x := getKPIbyNameAndVariant e r variant
    let cnt := (x.filter (fun o => o.isSome && !(o = some 0 : Bool))).length
    Weights.vec (x.map (Option.map (fun q => ((cnt : ℚ) / nansum x) * q)))
/-- `series * weight`: multiplying by the float `1.0` is the identity on
every cell (`NaN * 1.0 = NaN`, `q * 1.0 = q`); multiplying by an
identically-indexed series is elementwise. -/
def mulW (x : List Val) : Weights → List Val
  | Weights.one => x
  | Weights.vec w => List.zipWith optMul x w
/-! ### Plain delta (`Experiment.delta`) -/
/-- The external worker factories (`statx.make_delta`,
`es.make_group_sequential`, `es.make_bayes_factor`,
`es.make_bayes_precision`): out-of-scope collaborators with a fixed
contract; a factory turns the worker arguments into a pure two-sample
function.  `α` is the worker's result type, `β` the type of
`workerArgs`. -/
structure Externals (α β : Type) where
  make_delta : β → List Val → List Val → α
  make_group_sequential : β → List Val → List Val → α
  make_bayes_factor : β → List Val → List Val → α
  make_bayes_precision : β → List Val → List Val → α
/-- The `workerTable` dict of `delta`: maps a method name to its factory. -/
def workerTable {α β : Type} (ext : Externals α β) (method : String) :
    Option (β → List Val → List Val → α) :=
  if method = "fixed_horizon" then some ext.make_delta
  else if method = "group_sequential" then some ext.make_group_sequential
  else if method = "bayes_factor" then some ext.make_bayes_factor
  else if method = "bayes_precision" then some ext.make_bayes_precision
  else none
/-- One entry of `delta`'s result:
`{'controlVariant': ..., 'treatmentVariant': ..., 'deltaStatistics': ...}`. -/
structure DeltaEntry (α : Type) where
  controlVariant : String
  treatmentVariant : String
  deltaStatistics : α
  deriving DecidableEq
/-- `Experiment.delta(method, workerArgs)` (source lines 93-119): selects
a worker, then for every reported KPI and every discovered variant stores
the worker of the weighted treatment and control samples, keyed by
`(kpi, variant)`.  An unknown method raises `NotImplementedError`. -/
def delta {α β : Type} (ext : Externals α β) (e : Experiment) (method : String)
    (workerArgs : β) : Except String (List (String × List (String × DeltaEntry α))) :=
  match workerTable ext method with
  | none => .error "NotImplementedError"
  | some factory =>
    let worker := factory workerArgs
    .ok (e.reportKpiNames.map (fun kpi =>
      let control := getKPIbyNameAndVariant e kpi e.controlVariantName
      let controlWeight := getWeights e kpi e.controlVariantName
      (kpi, e.variantNames.map (fun variant =>
        let treatment := getKPIbyNameAndVariant e kpi variant
        let treatmentWeight := getWeights e kpi variant
        (variant,
          { controlVariant := e.controlVariantName
            treatmentVariant := variant
            deltaStatistics :=
              worker (mulW treatment treatmentWeight) (mulW control controlWeight) })))))
/-! ### Binned-delta engine (`Experiment._binned_deltas`) -/
/-- One row of the 3-column projection handed to `_binned_deltas`:
`(variant, binning-source feature, kpi)`. -/
structure BRow where
  variant : String
  feat : Val
  kpi : Val
  deriving DecidableEq
/-- The external `BinAssigner`: `binmodule.NumericalBinning` or a
categorical binning, reduced to its label function (the `label(data=...,
format_str=...)` call, applied elementwise); `L` is the label type.
Numeric labels are orderable (supporting the cumulative `≤` filter). -/
inductive Binning (L : Type) where
  | numerical (lab : Val → L)
  | categorical (lab : Val → L)
/-- The elementwise label function of a binning. -/
def Binning.labelFn {L : Type} : Binning L → (Val → L)
  | Binning.numerical lab => lab
  | Binning.categorical lab => lab
/-- `type(binning) == binmodule.NumericalBinning`. -/
def Binning.isNumerical {L : Type} : Binning L → Bool
  | Binning.numerical _ => true
  | Binning.categorical _ => false
/-- `binning if binning is not None else binmodule.create_binning(df.iloc[:, 1],
nbins=n_bins)`; `createB` models the external `create_binning` (already
applied to `n_bins`). -/
def resolveBinning {L : Type} (createB : List Val → Binning L)
    (binningO : Option (Binning L)) (df : List BRow) : Binning L :=
  match binningO with
  | some b => b
  | none => createB (df.map (fun r => r.feat))
/-- The row subset a bin's comparison works on:
`df[df['_tmp_bin_'] == b]` when non-cumulative, `df[df['_tmp_bin_'] <= b]`
when cumulative (labels computed by the binning's label function). -/
def binSubset {L : Type} [LinearOrder L] (lab : Val → L) (cumulative : Bool)
    (df : List BRow) (b : L) : List BRow :=
  df.filter (fun r => if cumulative then decide (lab r.feat ≤ b) else decide (lab r.feat = b))
/-- `f.iloc[:, 2][f.iloc[:, 0] == v]`: the KPI values of variant `v`'s
rows in a subset. -/
def variantKpis (rows : List BRow) (v : String) : List Val :=
  rows.filterMap (fun r => if r.variant = v then some r.kpi else none)
/-- One output unit of the engine, keyed by `(variant, bin)` (the
`metric/subgroup_metric/subgroup/statistic/pctile` levels come from the
constant column name and the worker output and are packaged by the
result-assembly code). -/
structure BEntry (L α : Type) where
  variant : String
  bin : L
  stats : α
  deriving DecidableEq
/-- `do_delta(f, bin_name)` (source lines 487-505): separate the control
subset (`variants[1]`; `variants[0]`, the nominal treatment, is unused —
the source comment flags this as bug OCTO-869), then run the worker once
for *every* distinct variant present in the subset, in first-occurrence
order, keying each result by `(variant, bin_name)`. -/
def doDelta {L α : Type} (worker : List Val → List Val → α)
    (variants : String × String) (f : List BRow) (binName : L) : List (BEntry L α) :=
  let baselineMetric := variantKpis f variants.2
  (uniqueFirst (f.map (fun r => r.variant))).map (fun v =>
    { variant := v, bin := binName, stats := worker (variantKpis f v) baselineMetric })
/-- `Experiment._binned_deltas(df, variants, n_bins, binning, cumulative,
label_format_str, deltaWorker)` (source lines 450-524): resolve the
binning, reject a cumulative request on a non-numerical binning, label
each row, enumerate the distinct labels in first-occurrence order, and
for each bin label run `do_delta` on the (plain or cumulative) subset.
The per-bin results are concatenated in order; the final
unstack/swaplevel index packaging is represented by the `BEntry` keys.
Returns the entry list together with the binning used (the
`Results(result, {'binning': binning})` payload). -/
def binnedDeltas {L α : Type} [LinearOrder L] (createB : List Val → Binning L)
    (worker : List Val → List Val → α) (df : List BRow)
    (variants : String × String) (binningO : Option (Binning L))
    (cumulative : Bool) : Except String (List (BEntry L α) × Binning L) :=
  let binning := resolveBinning createB binningO df
  if cumulative = true ∧ binning.isNumerical = false then
    .error "Cannot calculate cumulative deltas for non-numerical binnings"
  else
    let lab := binning.labelFn
    let bins := uniqueFirst (df.map (fun r => lab r.feat))
    .ok (bins.flatMap (fun b => doDelta worker variants (binSubset lab cumulative df b) b),
         binning)
/-! ### The dead analysis methods (`sga`, `trend`, `feature_check`)

The module's import of `Results` (and of the `*_to_dataframe` helpers)
is commented out, and `__init__` never assigns `self.metrics`,
`self.kpis_time`, `self.features`, `self.baseline_variant`,
`self.kpi_names`, `self.feature_names` or `self.variant_names`.  Each of
the three public methods begins with `res = Results(None,
metadata=self.metadata)`; CPython resolves the callable `Results` before
evaluating its arguments, so every call dies with
`NameError: name 'Results' is not defined` on its first statement.  The
models below walk the body's global-name and attribute accesses in source
order, erroring at the first unresolvable one. -/
/-- A Python runtime name-resolution error. -/
inductive PyErr where
  | nameError (n : String)
  | attributeError (n : String)
  deriving DecidableEq
/-- The module-level names defined by `experiment.py`'s imports and
top-level statements.  `Results`, `delta_to_dataframe_all_variants`,
`feature_check_to_dataframe` and `early_stopping_to_dataframe` appear only
in commented-out imports and so are *not* defined. -/
def moduleGlobals : List String :=
  ["logging", "re", "warnings", "np", "pd", "binmodule", "es", "statx",
   "getColumnNamesByType", "logger", "Experiment"]
/-- Resolution of a global name in the module. -/
def resolveGlobal (n : String) : Except PyErr Unit :=
  if moduleGlobals.contains n then .ok () else .error (PyErr.nameError n)
/-- The instance attributes assigned by `__init__` (the fields of
`Experiment`). -/
def experimentAttrNames : List String :=
  ["data", "metadata", "reportKpiNames", "derivedKpis", "variantNames",
   "controlVariantName", "referenceKpis"]
/-- `self.<n>`: attribute lookup on an `Experiment` instance. -/
def attrCheck (_ : Experiment) (n : String) : Except PyErr Unit :=
  if experimentAttrNames.contains n then .ok () else .error (PyErr.attributeError n)
/-- `Experiment.sga(...)` (source lines 184-254), reduced to its
name/attribute accesses in order: `Results` (line 222), then
`self.metadata`, `self.metrics` (225), `self.kpi_names` (232),
`self.feature_names` (234), `self.variant_names` (236),
`self.baseline_variant` (238).  The first access already fails. -/
def sgaModel (e : Experiment) : Except PyErr Unit := do
  resolveGlobal "Results"
  attrCheck e "metadata"
  attrCheck e "metrics"
  attrCheck e "kpi_names"
  attrCheck e "feature_names"
  attrCheck e "variant_names"
  attrCheck e "baseline_variant"
  .ok ()
/-- `Experiment.trend(...)` (source lines 257-334), reduced to its
name/attribute accesses in order: `Results` (line 292), then
`self.metadata`, `self.kpis_time` (294), `self.kpi_names` (310),
`self.variant_names` (312), `self.baseline_variant` (314).  The first
access already fails, so the documented graceful branches (lines 294-306:
empty result plus recorded warning) are unreachable. -/
def trendModel (e : Experiment) : Except PyErr Unit := do
  resolveGlobal "Results"
  attrCheck e "metadata"
  attrCheck e "kpis_time"
  attrCheck e "kpi_names"
  attrCheck e "variant_names"
  attrCheck e "baseline_variant"
  .ok ()
/-- `Experiment.feature_check(...)` (source lines 125-181), reduced to its
name/attribute accesses in order: `Results` (line 156), then
`self.metadata`, `self.features` (159), `self.feature_names` (166),
`self.variant_names` (168), `self.baseline_variant` (175).  The first
access already fails. -/
def featureCheckModel (e : Experiment) : Except PyErr Unit := do
  resolveGlobal "Results"
  attrCheck e "metadata"
  attrCheck e "features"
  attrCheck e "feature_names"
  attrCheck e "variant_names"
  attrCheck e "baseline_variant"
  .ok ()
/-- A valid single-variant data frame lacking any time column. -/
def dfW8 : DataFrame :=
  [("entity", ColData.numCol [some 1]), ("variant", ColData.strCol ["A"]),
   ("k", ColData.numCol [some 5])]
/-- Fallback value for extracting a successfully constructed experiment. -/
def fallbackExperiment : Experiment :=
  { data := [], metadata := [], reportKpiNames := [], derivedKpis := [],
    variantNames := [], controlVariantName := "", referenceKpis := [] }
/-- The experiment constructed from `dfW8`. -/
def e8 : Experiment :=
  ((mkExperiment "A" dfW8 [] (some ["k"]) []).toOption).getD fallbackExperiment
/-- A two-row table lacking the report KPI column `k`. -/
def dfW7 : DataFrame :=
  [("entity", ColData.numCol [some 1]), ("variant", ColData.strCol ["A"])]
/-- Identity-style external worker pack used by concrete witnesses: every
factory returns the pair of its two samples. -/
def extW : Externals (List Val × List Val) Unit :=
  { make_delta := fun _ x y => (x, y)
    make_group_sequential := fun _ x y => (x, y)
    make_bayes_factor := fun _ x y => (x, y)
    make_bayes_precision := fun _ x y => (x, y) }
/-- A concrete two-variant experiment with control `A`. -/
def eW1 : Experiment :=
  { data := [("entity", ColData.numCol [some 1, some 2]),
             ("variant", ColData.strCol ["A", "B"]),
             ("k", ColData.numCol [some 10, some 20])]
    metadata := []
    reportKpiNames := ["k"]
    derivedKpis := []
    variantNames := ["A", "B"]
    controlVariantName := "A"
    referenceKpis := [] }
/-- The 3-column projection of a four-row, two-variant data slice with
control variant `A` present in both bins. -/
def dfB : List BRow :=
  [⟨"A", some 1, some 10⟩, ⟨"B", some 1, some 30⟩,
   ⟨"A", some 2, some 20⟩, ⟨"B", some 2, some 40⟩]
/-- A numerical binning whose label is the (non-missing) feature value. -/
def labB : Val → ℚ := fun v => v.getD 0
/-- The binning object built from `labB`. -/
def binningB : Binning ℚ := Binning.numerical labB
/-- Identity worker returning its two samples. -/
def workerB : List Val → List Val → List Val × List Val := fun x y => (x, y)
/-- Dummy external `create_binning` (unused when a binning is supplied). -/
def createBB : List Val → Binning ℚ := fun _ => binningB
/-- The full output of the engine on `dfB` in cumulative mode. -/
def entriesB : List (BEntry ℚ (List Val × List Val)) :=
  [⟨"A", 1, ([some 10], [some 10])⟩, ⟨"B", 1, ([some 30], [some 10])⟩,
   ⟨"A", 2, ([some 10, some 20], [some 10, some 20])⟩,
   ⟨"B", 2, ([some 30, some 40], [some 10, some 20])⟩]
/-- A table with raw columns `a` and `b` alongside the obligatory
`entity`/`variant`. -/
def dfW5 : DataFrame :=
  [("entity", ColData.numCol [some 1]), ("variant", ColData.strCol ["A"]),
   ("a", ColData.numCol [some 1]), ("b", ColData.numCol [some 2])]
/-- The experiment of the C5 construction. -/
def e5 : Experiment :=
  ((mkExperiment "A" dfW5 [] (some ["d1", "d2"]) [("d1", "a/b"), ("d2", "a*b")]).toOption).getD
    fallbackExperiment
/-- A table containing `a` and also a raw `d1` column (so that a formula
referencing the derived name `d1` passes validation). -/
def dfW9 : DataFrame :=
  [("entity", ColData.numCol [some 1]), ("variant", ColData.strCol ["A"]),
   ("a", ColData.numCol [some 3]), ("d1", ColData.numCol [some 99])]
/-- Like `dfW9` but without the raw `d1` column. -/
def dfW9a : DataFrame :=
  [("entity", ColData.numCol [some 1]), ("variant", ColData.strCol ["A"]),
   ("a", ColData.numCol [some 3])]

/-! ### Theorems -/

theorem mem_uniqueFirstAux {γ : Type} [DecidableEq γ] :
    ∀ (l seen : List γ) (x : γ),
      x ∈ uniqueFirstAux seen l ↔ x ∈ l ∧ x ∉ seen := by
  intro l
  induction l with
  | nil => intro seen x; simp [uniqueFirstAux]
  | cons a l ih =>
    intro seen x
    by_cases ha : a ∈ seen
    · simp only [uniqueFirstAux, if_pos ha, ih]
      constructor
      · rintro ⟨hx, hs⟩; exact ⟨List.mem_cons_of_mem _ hx, hs⟩
      · rintro ⟨hx, hs⟩
        rcases List.mem_cons.mp hx with rfl | hx
        · exact absurd ha hs
        · exact ⟨hx, hs⟩
    · simp only [uniqueFirstAux, if_neg ha]
      constructor
      · intro hx
        rcases List.mem_cons.mp hx with rfl | hx
        · exact ⟨List.mem_cons_self _ _, ha⟩
        · rcases (ih _ _).mp hx with ⟨hl, hns⟩
          refine ⟨List.mem_cons_of_mem _ hl, fun hs => hns ?_⟩
          exact List.mem_cons_of_mem _ hs
      · rintro ⟨hx, hs⟩
        rcases List.mem_cons.mp hx with rfl | hx
        · exact List.mem_cons_self _ _
        · by_cases hxa : x = a
          · subst hxa; exact List.mem_cons_self _ _
          · exact List.mem_cons_of_mem _
              ((ih _ _).mpr ⟨hx, by simp [hxa, hs]⟩)
theorem mem_uniqueFirst {γ : Type} [DecidableEq γ] (l : List γ) (x : γ) :
    x ∈ uniqueFirst l ↔ x ∈ l := by
  simp [uniqueFirst, mem_uniqueFirstAux]
/-! ### Helper lemmas -/
/-- Looking a key up in a map built by pairing each list element with a
function of it yields that function's value, for any member key. -/
theorem lookup_map_self {δ : Type} (g : String → δ) :
    ∀ (l : List String) (k : String), k ∈ l →
      (l.map (fun x => (x, g x))).lookup k = some (g k) := by
  intro l
  induction l with
  | nil => intro k hk; cases hk
  | cons a l ih =>
    intro k hk
    by_cases hka : k = a
    · subst hka; simp [List.lookup]
    · rcases List.mem_cons.mp hk with rfl | h
      · exact absurd rfl hka
      · have hb : (k == a) = false := by simp [hka]
        simp only [List.map_cons, List.lookup, hb]
        exact ih k h
/-- If some member of a list satisfies a predicate, `find?` returns a
member satisfying it. -/
theorem exists_find?_eq_some (p : String → Bool) :
    ∀ (l : List String), (∃ c ∈ l, p c = true) →
      ∃ c, l.find? p = some c ∧ c ∈ l ∧ p c = true := by
  intro l
  induction l with
  | nil => rintro ⟨c, hc, _⟩; cases hc
  | cons a l ih =>
    rintro ⟨c, hc, hp⟩
    by_cases ha : p a = true
    · exact ⟨a, List.find?_cons_of_pos _ ha, List.mem_cons_self _ _, ha⟩
    · have hc' : c ∈ l := by
        rcases List.mem_cons.mp hc with rfl | h
        · exact absurd hp ha
        · exact h
      rcases ih ⟨c, hc', hp⟩ with ⟨c', hfind, hmem, hp'⟩
      exact ⟨c', by rw [List.find?_cons_of_neg _ (by simpa using ha)]; exact hfind,
        List.mem_cons_of_mem _ hmem, hp'⟩
/-- If some required column is absent, the constructor core stops at the
missing-column error, naming an absent required column. -/
theorem mkCore_missing (ctrl : String) (data : DataFrame) (md : Metadata)
    (report : List String) (derived : List (String × String))
    (h : ∃ c ∈ requiredColumnNames report derived, hasCol data c = false) :
    ∃ c ∈ requiredColumnNames report derived, hasCol data c = false ∧
      mkExperimentCore ctrl data md report derived =
        .error ("No column " ++ c ++ " provided") := by
  rcases h with ⟨c, hc, habs⟩
  rcases exists_find?_eq_some (fun c => !(hasCol data c))
      (requiredColumnNames report derived) ⟨c, hc, by simp [habs]⟩
    with ⟨c', hfind, hmem, hp⟩
  refine ⟨c', hmem, by simpa using hp, ?_⟩
  unfold mkExperimentCore
  rw [hfind]
/-- Every cell of a float column is exactly one of: a zero, a `NaN`, or a
non-zero non-missing value; hence the three filter counts partition the
length. -/
theorem weight_count_partition (x : List Val) :
    (x.filter (fun o => o = some 0)).length
      + (x.filter (fun o => o.isNone)).length
      + (x.filter (fun o => o.isSome && !(o = some 0 : Bool))).length = x.length := by
  induction x with
  | nil => simp
  | cons o x ih =>
    match o with
    | none => simp [List.filter]; omega
    | some q =>
      by_cases hq : q = 0
      · subst hq; simp [List.filter]; omega
      · simp [List.filter, hq]; omega
/-! ### Claim theorems -/
/-- C10: every call to `sga`, `trend` or `feature_check` on any
constructed `Experiment` raises before producing any result: the first
statement of each resolves the global name `Results`, which the module
never defines (its import is commented out), and the attributes these
bodies would subsequently read (`metrics`, `kpis_time`, `features`,
`baseline_variant`, `kpi_names`, `feature_names`, `variant_names`) are not
among the attributes `__init__` assigns — so the documented empty-result
recovery paths are unreachable. -/
theorem analysis_methods_always_raise :
    (∀ e : Experiment, sgaModel e = .error (PyErr.nameError "Results"))
    ∧ (∀ e : Experiment, trendModel e = .error (PyErr.nameError "Results"))
    ∧ (∀ e : Experiment, featureCheckModel e = .error (PyErr.nameError "Results"))
    ∧ moduleGlobals.contains "Results" = false
    ∧ (["metrics", "kpis_time", "features", "baseline_variant", "kpi_names",
        "feature_names", "variant_names"].all
          (fun n => !(experimentAttrNames.contains n)) = true) :=
  ⟨fun _ => rfl, fun _ => rfl, fun _ => rfl, by decide, by decide⟩
/-- C8 (code bug): the claim — `trend` on data lacking a
`time_since_treatment` column returns an empty result with a recorded
warning and does not raise — matches the method's docstring and its own
lines 301-306, but that branch is dead code: on this concretely
constructed experiment (whose data indeed has no `time_since_treatment`
column) `trend` raises `NameError: name 'Results' is not defined` on its
first statement, before the time-column check is ever reached. -/
theorem trend_raises_nameerror :
    mkExperiment "A" dfW8 [] (some ["k"]) [] = .ok e8
    ∧ hasCol e8.data "time_since_treatment" = false
    ∧ trendModel e8 = .error (PyErr.nameError "Results") :=
  ⟨rfl, by decide, rfl⟩
/-- C4: `_getWeights(kpi, variant)` equals the spec's §3 weight: for a KPI
with recorded reference KPI `r`, the count of `r`-values of the variant's
rows that are neither 0 nor missing, divided by the missing-as-0 sum of
those values, times the value vector elementwise (`NaN` cells stay `NaN`);
and the float `1.0` for a KPI with no recorded reference KPI.  (The
source computes the count as `len(x) - (sum(x == 0) + isnan(x).sum())`,
which the partition lemma shows is the same number.) -/
theorem getWeights_eq_specification (e : Experiment) (kpi variant : String) :
    getWeights e kpi variant = weightSpecification e kpi variant := by
  unfold getWeights weightSpecification
  cases h : e.referenceKpis.lookup kpi with
  | none => rfl
  | some r =>
    simp only []
    have hcount := weight_count_partition (getKPIbyNameAndVariant e r variant)
    have hz : ((getKPIbyNameAndVariant e r variant).filter (fun o => o = some 0)).length
        + ((getKPIbyNameAndVariant e r variant).filter (fun o => o.isNone)).length
        ≤ (getKPIbyNameAndVariant e r variant).length := by omega
    have heq : (getKPIbyNameAndVariant e r variant).length
        - (((getKPIbyNameAndVariant e r variant).filter (fun o => o = some 0)).length
          + ((getKPIbyNameAndVariant e r variant).filter (fun o => o.isNone)).length)
        = ((getKPIbyNameAndVariant e r variant).filter
            (fun o => o.isSome && !(o = some 0 : Bool))).length := by omega
    rw [heq]
/-- C7: constructing an `Experiment` over a table missing at least one
required column (report KPIs and `entity`/`variant` minus derived names,
plus every identifier of every derived formula) raises
`ValueError('No column ... provided')` naming an absent column; since the
raise happens in the validation loop, before any attribute assignment, the
`Except.error` result carries no (partial) `Experiment` value.  The
explicit report list is assumed non-empty (an empty list is falsy in
Python and would be replaced by the float-column default). -/
theorem missing_column_raises (ctrl : String) (data : DataFrame) (md : Metadata)
    (report : List String) (derived : List (String × String))
    (hrep : report ≠ [])
    (h : ∃ c ∈ requiredColumnNames report derived, hasCol data c = false) :
    ∃ c ∈ requiredColumnNames report derived, hasCol data c = false ∧
      mkExperiment ctrl data md (some report) derived =
        .error ("No column " ++ c ++ " provided") := by
  cases report with
  | nil => exact absurd rfl hrep
  | cons a l => exact mkCore_missing ctrl data md (a :: l) derived h
/-- Witness for C7 at a concrete input: requesting KPI `k` over a table
without a `k` column fails with the missing-column error. -/
theorem missing_column_raises_wit :
    ∃ c ∈ requiredColumnNames ["k"] [], hasCol dfW7 c = false ∧
      mkExperiment "A" dfW7 [] (some ["k"]) [] =
        .error ("No column " ++ c ++ " provided") :=
  missing_column_raises "A" dfW7 [] ["k"] [] (by decide) ⟨"k", by decide, by decide⟩
/-- C1: with a known method (a hit in the worker table), `delta` returns
a mapping holding, for every reported KPI `kpi` and every variant `v`
discovered in the data (the control variant, compared against itself,
included), an entry keyed by `(kpi, v)` of the form `{controlVariant,
treatmentVariant, deltaStatistics}` whose statistics are the worker
applied to `x =` the variant's KPI values times `weight(kpi, v)` and
`y =` the control variant's KPI values times
`weight(kpi, controlVariant)`.  The control variant is assumed to be one
of the discovered variants (the spec's §3 membership invariant; Python's
`.loc` would raise a `KeyError` otherwise). -/
theorem delta_keyed_entries {α β : Type} (ext : Externals α β) (e : Experiment)
    (method : String) (args : β) (factory : β → List Val → List Val → α)
    (kpi v : String)
    (hm : workerTable ext method = some factory)
    (hctrl : e.controlVariantName ∈ e.variantNames)
    (hk : kpi ∈ e.reportKpiNames) (hv : v ∈ e.variantNames) :
    ∃ res, delta ext e method args = .ok res ∧
      ∃ inner, res.lookup kpi = some inner ∧
        inner.lookup v = some
          { controlVariant := e.controlVariantName
            treatmentVariant := v
            deltaStatistics :=
              factory args
                (mulW (getKPIbyNameAndVariant e kpi v) (getWeights e kpi v))
                (mulW (getKPIbyNameAndVariant e kpi e.controlVariantName)
                  (getWeights e kpi e.controlVariantName)) } := by
  unfold delta
  rw [hm]
  refine ⟨_, rfl, ?_⟩
  refine ⟨_, lookup_map_self _ e.reportKpiNames kpi hk, ?_⟩
  exact lookup_map_self _ e.variantNames v hv
/-- Witness for C1 at a concrete input, instantiated at the control
variant itself (the claim's "control compared against itself" case). -/
theorem delta_keyed_entries_wit :
    ∃ res, delta extW eW1 "fixed_horizon" () = .ok res ∧
      ∃ inner, res.lookup "k" = some inner ∧
        inner.lookup "A" = some
          { controlVariant := eW1.controlVariantName
            treatmentVariant := "A"
            deltaStatistics :=
              extW.make_delta ()
                (mulW (getKPIbyNameAndVariant eW1 "k" "A") (getWeights eW1 "k" "A"))
                (mulW (getKPIbyNameAndVariant eW1 "k" eW1.controlVariantName)
                  (getWeights eW1 "k" eW1.controlVariantName)) } :=
  delta_keyed_entries extW eW1 "fixed_horizon" () extW.make_delta "k" "A" rfl
    (by decide) (by decide) (by decide)
/-- C3: in `_binned_deltas`, for every bin label `b` (in first-occurrence
order) and for *every* distinct variant `v` present in that bin's row
subset — not only the nominal treatment variant `variants[0]`, which the
implementation never reads — the engine emits an entry keyed `(v, b)`
whose statistics are the worker applied to `v`'s KPI values in the subset
against the control subset's KPI values (`variants[1]`). -/
theorem binned_all_present_variants {L α : Type} [LinearOrder L]
    (createB : List Val → Binning L) (worker : List Val → List Val → α)
    (df : List BRow) (variants : String × String) (binningO : Option (Binning L))
    (cumulative : Bool) (b : L) (v : String)
    (hguard : ¬(cumulative = true
      ∧ (resolveBinning createB binningO df).isNumerical = false))
    (hb : b ∈ uniqueFirst
      (df.map (fun r => (resolveBinning createB binningO df).labelFn r.feat)))
    (hv : v ∈ (binSubset (resolveBinning createB binningO df).labelFn cumulative df b).map
      (fun r => r.variant)) :
    ∃ entries, binnedDeltas createB worker df variants binningO cumulative =
        .ok (entries, resolveBinning createB binningO df) ∧
      ({ variant := v, bin := b
         stats := worker
           (variantKpis
             (binSubset (resolveBinning createB binningO df).labelFn cumulative df b) v)
           (variantKpis
             (binSubset (resolveBinning createB binningO df).labelFn cumulative df b)
             variants.2) } : BEntry L α) ∈ entries := by
  simp only [binnedDeltas]
  rw [if_neg hguard]
  refine ⟨_, rfl, ?_⟩
  apply List.mem_flatMap.mpr
  refine ⟨b, hb, ?_⟩
  unfold doDelta
  apply List.mem_map.mpr
  exact ⟨v, (mem_uniqueFirst _ _).mpr hv, rfl⟩
/-- C6: every entry the binned-delta engine emits for bin label `b` was
computed from exactly the subset `rows[label == b]` when non-cumulative
and `rows[label ≤ b]` when cumulative: its statistics are the worker of
that subset's per-variant and control KPI values, and its bin key is one
of the distinct labels of the data.  (The returned binning is the one the
engine resolved and applied.) -/
theorem binned_subset_rule {L α : Type} [LinearOrder L]
    (createB : List Val → Binning L) (worker : List Val → List Val → α)
    (df : List BRow) (variants : String × String) (binningO : Option (Binning L))
    (cumulative : Bool) (entries : List (BEntry L α)) (binning : Binning L)
    (hok : binnedDeltas createB worker df variants binningO cumulative =
      .ok (entries, binning))
    (en : BEntry L α) (hen : en ∈ entries) :
    binning = resolveBinning createB binningO df
    ∧ en.bin ∈ uniqueFirst (df.map (fun r => binning.labelFn r.feat))
    ∧ en.stats = worker
        (variantKpis (binSubset binning.labelFn cumulative df en.bin) en.variant)
        (variantKpis (binSubset binning.labelFn cumulative df en.bin) variants.2) := by
  simp only [binnedDeltas] at hok
  by_cases hguard : cumulative = true
      ∧ (resolveBinning createB binningO df).isNumerical = false
  · rw [if_pos hguard] at hok; cases hok
  · rw [if_neg hguard] at hok
    injection hok with hok
    injection hok with hentries hbinning
    subst hentries
    subst hbinning
    rcases List.mem_flatMap.mp hen with ⟨b, hb, hmem⟩
    unfold doDelta at hmem
    rcases List.mem_map.mp hmem with ⟨v, _, heq⟩
    subst heq
    exact ⟨rfl, hb, rfl⟩
/-- C2 (code bug): the claim — and `sga`'s own docstring ("Does this for
all non-baseline variants") — say the control variant never appears as a
compared variant, but the engine that `sga` delegates to emits a
comparison row for *every* variant present, control included (the source
marks this as bug OCTO-869); here, with nominal variants `('B', 'A')` and
control `A`, the entry keyed `(A, bin 1)` comparing the control against
itself is emitted.  (`sga` itself additionally dies on the undefined name
`Results` before ever returning a table, and the `variant_subset` it
computes by removing the baseline is never passed on.) -/
theorem binned_control_variant_emitted :
    ∃ p, binnedDeltas createBB workerB dfB ("B", "A") (some binningB) false = .ok p ∧
      ({ variant := "A", bin := (1 : ℚ), stats := ([some 10], [some 10]) }
        : BEntry ℚ (List Val × List Val)) ∈ p.1 := by
  refine ⟨_, rfl, ?_⟩
  decide
/-- Witness for C3 at a concrete input: variant `B` (present in bin 1's
subset) gets an entry keyed `(B, 1)` comparing it to control `A`. -/
theorem binned_all_present_variants_wit :
    ∃ entries, binnedDeltas createBB workerB dfB ("B", "A") (some binningB) false =
        .ok (entries, resolveBinning createBB (some binningB) dfB) ∧
      ({ variant := "B", bin := (1 : ℚ)
         stats := workerB
           (variantKpis
             (binSubset (resolveBinning createBB (some binningB) dfB).labelFn false dfB 1) "B")
           (variantKpis
             (binSubset (resolveBinning createBB (some binningB) dfB).labelFn false dfB 1)
             ("B", "A").2) } : BEntry ℚ (List Val × List Val)) ∈ entries :=
  binned_all_present_variants createBB workerB dfB ("B", "A") (some binningB) false 1 "B"
    (by decide) (by decide) (by decide)
/-- Witness for C6 at a concrete cumulative input: the `(B, 1)` entry of
the computed output was produced from exactly the rows with label ≤ 1. -/
theorem binned_subset_rule_wit :
    binningB = resolveBinning createBB (some binningB) dfB
    ∧ ({ variant := "B", bin := (1 : ℚ), stats := ([some 30], [some 10]) }
        : BEntry ℚ (List Val × List Val)).bin
        ∈ uniqueFirst (dfB.map (fun r => binningB.labelFn r.feat))
    ∧ ({ variant := "B", bin := (1 : ℚ), stats := ([some 30], [some 10]) }
        : BEntry ℚ (List Val × List Val)).stats = workerB
        (variantKpis (binSubset binningB.labelFn true dfB 1) "B")
        (variantKpis (binSubset binningB.labelFn true dfB 1) ("B", "A").2) :=
  binned_subset_rule createBB workerB dfB ("B", "A") (some binningB) true entriesB binningB
    (by rfl) ⟨"B", 1, ([some 30], [some 10])⟩ (by decide)
/-! ### Scanner lemmas for the reference-KPI substitution -/
/-- The `re.sub` scanner leaves a slash-free string unchanged. -/
theorem stripNoSlash :
    ∀ (fuel : ℕ) (l : List Char), l.length < fuel → '/' ∉ l →
      stripRefAux fuel l = l := by
  intro fuel
  induction fuel with
  | zero => intro l hl _; exact absurd hl (Nat.not_lt_zero _)
  | succ fuel ih =>
    intro l hl hs
    match l with
    | [] => rfl
    | c :: rest =>
      have hrest : rest.length < fuel := by
        simp only [List.length_cons] at hl; omega
      by_cases hA : c.isAlpha
      · have hic : identChar c = true := by simp [identChar, hA]
        have hmem : ∀ x ∈ (c :: rest).dropWhile identChar, x ∈ c :: rest :=
          fun x hx => (List.dropWhile_sublist identChar).mem hx
        have hlen : ((c :: rest).dropWhile identChar).length ≤ rest.length := by
          rw [List.dropWhile_cons, if_pos hic]
          exact (List.dropWhile_sublist identChar).length_le
        unfold stripRefAux
        rw [if_pos hA]
        cases hD : (c :: rest).dropWhile identChar with
        | nil =>
          have htw := List.takeWhile_append_dropWhile identChar (c :: rest)
          rw [hD, List.append_nil] at htw
          exact htw
        | cons a after =>
          show (if a = '/' then stripRefAux fuel after
            else (c :: rest).takeWhile identChar ++ stripRefAux fuel (a :: after))
            = c :: rest
          have ha : a ≠ '/' := by
            intro h
            exact hs (hmem '/' (by rw [hD, ← h]; exact List.mem_cons_self _ _))
          rw [if_neg ha]
          rw [hD] at hlen
          have hrec := ih (a :: after) (by omega)
            (fun hx => hs (hmem '/' (by rw [hD]; exact hx)))
          rw [hrec, ← hD]
          exact List.takeWhile_append_dropWhile identChar (c :: rest)
      · unfold stripRefAux
        rw [if_neg hA]
        exact congrArg (List.cons c)
          (ih rest hrest (fun hx => hs (List.mem_cons_of_mem _ hx)))
/-- Dropping a satisfying prefix from `xs ++ y :: ys` with `p y` false
stops exactly at `y`. -/
theorem dropWhile_all_append (p : Char → Bool) :
    ∀ (xs : List Char) (y : Char) (ys : List Char),
      (∀ x ∈ xs, p x = true) → p y = false →
      List.dropWhile p (xs ++ y :: ys) = y :: ys := by
  intro xs
  induction xs with
  | nil => intro y ys _ hy; simp [List.dropWhile_cons, hy]
  | cons a xs ih =>
    intro y ys hall hy
    have ha : p a = true := hall a (List.mem_cons_self _ _)
    rw [List.cons_append, List.dropWhile_cons, if_pos ha]
    exact ih y ys (fun x hx => hall x (List.mem_cons_of_mem _ hx)) hy
/-- On a string of the shape `identifier ++ '/' ++ slash-free-tail`, the
`re.sub` scanner deletes the identifier and the slash and returns the
tail: the recorded reference KPI of `numerator/denominator` is the
denominator. -/
theorem stripSplit (c : Char) (cs den : List Char)
    (hA : c.isAlpha = true) (hall : ∀ x ∈ c :: cs, identChar x = true)
    (hden : '/' ∉ den) :
    ∀ (fuel : ℕ), (c :: (cs ++ '/' :: den)).length < fuel →
      stripRefAux fuel (c :: (cs ++ '/' :: den)) = den := by
  intro fuel hfuel
  match fuel with
  | 0 => exact absurd hfuel (Nat.not_lt_zero _)
  | fuel + 1 =>
    have hdrop : (c :: (cs ++ '/' :: den)).dropWhile identChar = '/' :: den := by
      have hshape : (c :: cs) ++ '/' :: den = c :: (cs ++ '/' :: den) := rfl
      rw [← hshape]
      exact dropWhile_all_append identChar (c :: cs) '/' den hall (by decide)
    unfold stripRefAux
    rw [if_pos hA, hdrop]
    show (if ('/' : Char) = '/' then stripRefAux fuel den
      else (c :: (cs ++ '/' :: den)).takeWhile identChar ++ stripRefAux fuel ('/' :: den))
      = den
    rw [if_pos rfl]
    apply stripNoSlash fuel den _ hden
    simp only [List.length_cons, List.length_append] at hfuel ⊢
    omega
/-! ### Dictionary-insert lemmas -/
/-- Association-list lookup at a cons, with propositional equality. -/
theorem lookup_cons {δ : Type} (k a : String) (b : δ) (r : List (String × δ)) :
    List.lookup k ((a, b) :: r) = if k = a then some b else List.lookup k r := by
  by_cases h : k = a
  · subst h; simp [List.lookup]
  · have hb : (k == a) = false := by simp [h]
    simp [List.lookup, hb, h]
/-- The in-place upsert map keeps the inserted key's lookup at the new
value whenever the key was present. -/
theorem lookup_map_upsert {δ : Type} (k : String) (v : δ) :
    ∀ (r : List (String × δ)),
      ((r.map (fun p => if p.1 = k then (k, v) else p)).lookup k = some v)
      ∨ ((r.map (fun p => if p.1 = k then (k, v) else p)).lookup k = none
          ∧ r.lookup k = none) := by
  intro r
  induction r with
  | nil => right; exact ⟨rfl, rfl⟩
  | cons p r ih =>
    obtain ⟨a, b⟩ := p
    by_cases hk : a = k
    · subst hk
      left
      have hf : (if ((a, b) : String × δ).1 = a then (a, v) else (a, b)) = (a, v) :=
        if_pos rfl
      rw [List.map_cons, hf, lookup_cons, if_pos rfl]
    · have hf : (if ((a, b) : String × δ).1 = k then (k, v) else (a, b)) = (a, b) :=
        if_neg hk
      have hka : ¬(k = a) := fun h => hk h.symm
      rcases ih with h | ⟨h1, h2⟩
      · left
        rw [List.map_cons, hf, lookup_cons, if_neg hka]
        exact h
      · right
        constructor
        · rw [List.map_cons, hf, lookup_cons, if_neg hka]
          exact h1
        · rw [lookup_cons, if_neg hka]
          exact h2
/-- Appending a fresh key's pair makes it the lookup result. -/
theorem lookup_append_single {δ : Type} (k : String) (v : δ) :
    ∀ (r : List (String × δ)), r.lookup k = none →
      (r ++ [(k, v)]).lookup k = some v := by
  intro r
  induction r with
  | nil => intro _; rw [List.nil_append, lookup_cons, if_pos rfl]
  | cons p r ih =>
    obtain ⟨a, b⟩ := p
    intro hn
    rw [lookup_cons] at hn
    by_cases hka : k = a
    · rw [if_pos hka] at hn; cases hn
    · rw [if_neg hka] at hn
      rw [List.cons_append, lookup_cons, if_neg hka]
      exact ih hn
/-- The in-place upsert map leaves other keys' lookups unchanged. -/
theorem lookup_map_upsert_ne {δ : Type} (k n : String) (hne : k ≠ n) (v : δ) :
    ∀ (r : List (String × δ)),
      (r.map (fun p => if p.1 = k then (k, v) else p)).lookup n = r.lookup n := by
  intro r
  induction r with
  | nil => rfl
  | cons p r ih =>
    obtain ⟨a, b⟩ := p
    by_cases hk : a = k
    · subst hk
      have hf : (if ((a, b) : String × δ).1 = a then (a, v) else (a, b)) = (a, v) :=
        if_pos rfl
      have hna : ¬(n = a) := fun h => hne (h ▸ rfl)
      rw [List.map_cons, hf, lookup_cons, lookup_cons, if_neg hna, if_neg hna]
      exact ih
    · have hf : (if ((a, b) : String × δ).1 = k then (k, v) else (a, b)) = (a, b) :=
        if_neg hk
      rw [List.map_cons, hf, lookup_cons, lookup_cons]
      by_cases hna : n = a
      · rw [if_pos hna, if_pos hna]
      · rw [if_neg hna, if_neg hna]
        exact ih
/-- Appending one fresh pair leaves other keys' lookups unchanged. -/
theorem lookup_append_single_ne {δ : Type} (k n : String) (hne : k ≠ n) (v : δ) :
    ∀ (r : List (String × δ)), (r ++ [(k, v)]).lookup n = r.lookup n := by
  intro r
  induction r with
  | nil =>
    have hnk : ¬(n = k) := fun h => hne h.symm
    rw [List.nil_append, lookup_cons, if_neg hnk]
  | cons p r ih =>
    obtain ⟨a, b⟩ := p
    rw [List.cons_append, lookup_cons, lookup_cons]
    by_cases hna : n = a
    · rw [if_pos hna, if_pos hna]
    · rw [if_neg hna, if_neg hna]
      exact ih
/-- `dictInsert` makes the inserted key look up to the inserted value. -/
theorem lookup_dictInsert_self {δ : Type} (r : List (String × δ)) (k : String) (v : δ) :
    (dictInsert r k v).lookup k = some v := by
  unfold dictInsert
  by_cases h : (r.lookup k).isSome
  · rw [if_pos h]
    rcases lookup_map_upsert k v r with hgood | ⟨_, hnone⟩
    · exact hgood
    · rw [hnone] at h; cases h
  · rw [if_neg h]
    apply lookup_append_single
    cases hl : r.lookup k with
    | none => rfl
    | some w => rw [hl] at h; exact absurd rfl h
/-- `dictInsert` at one key does not change lookups of other keys. -/
theorem lookup_dictInsert_ne {δ : Type} (k n : String) (hne : k ≠ n) (v : δ)
    (r : List (String × δ)) : (dictInsert r k v).lookup n = r.lookup n := by
  unfold dictInsert
  by_cases h : (r.lookup k).isSome
  · rw [if_pos h]
    exact lookup_map_upsert_ne k n hne v r
  · rw [if_neg h]
    exact lookup_append_single_ne k n hne v r
/-! ### The derived-KPI loop -/
/-- `Except.ok` on the left of a bind reduces. -/
theorem except_bind_ok {ε α' β' : Type} (a : α') (f : α' → Except ε β') :
    (Except.ok a >>= f : Except ε β') = f a := rfl
/-- A successful run of the derived-KPI loop accumulates exactly the
slash-stripped formula of each derived KPI into `referenceKpis`, in
order. -/
theorem refs_of_foldlM :
    ∀ (items : List (String × String)) (e0 e : Experiment),
      List.foldlM derivedStep e0 items = .ok e →
      e.referenceKpis = items.foldl
        (fun r p => dictInsert r p.1 (stripRefSub p.2)) e0.referenceKpis := by
  intro items
  induction items with
  | nil =>
    intro e0 e h
    have he : e0 = e := by
      simpa [List.foldlM, pure, Except.pure] using h
    subst he
    rfl
  | cons p items ih =>
    intro e0 e h
    simp only [List.foldlM] at h
    unfold derivedStep at h
    cases heval : evalPyFormula p.2 e0.data with
    | error msg =>
      rw [heval] at h
      simp [Except.bind, Bind.bind] at h
    | ok col =>
      rw [heval, except_bind_ok, except_bind_ok] at h
      have := ih _ e h
      rw [this]
      rfl
/-- Folding `dictInsert` over pairs whose keys avoid `n` does not change
`n`'s lookup. -/
theorem lookup_foldl_ins_ne :
    ∀ (items : List (String × String)) (r0 : List (String × String)) (n : String),
      n ∉ items.map Prod.fst →
      (items.foldl (fun r p => dictInsert r p.1 (stripRefSub p.2)) r0).lookup n
        = r0.lookup n := by
  intro items
  induction items with
  | nil => intro r0 n _; rfl
  | cons p items ih =>
    intro r0 n hn
    have hp : p.1 ≠ n := by
      intro h
      exact hn (by rw [← h]; exact List.mem_map_of_mem Prod.fst (List.mem_cons_self _ _))
    simp only [List.foldl_cons]
    rw [ih _ n (fun h => hn (by
      rcases List.mem_map.mp h with ⟨q, hq, hqn⟩
      exact hqn ▸ List.mem_map_of_mem Prod.fst (List.mem_cons_of_mem _ hq)))]
    exact lookup_dictInsert_ne p.1 n hp _ r0
/-- Folding `dictInsert` over pairs with pairwise-distinct keys, none of
which is present initially, lets each key look up its own inserted
value. -/
theorem lookup_foldl_ins :
    ∀ (items : List (String × String)) (r0 : List (String × String)) (n f : String),
      (items.map Prod.fst).Nodup →
      (∀ p ∈ items, r0.lookup p.1 = none) →
      (n, f) ∈ items →
      (items.foldl (fun r p => dictInsert r p.1 (stripRefSub p.2)) r0).lookup n
        = some (stripRefSub f) := by
  intro items
  induction items with
  | nil => intro r0 n f _ _ h; cases h
  | cons p items ih =>
    intro r0 n f hnodup hnone hmem
    obtain ⟨a, fa⟩ := p
    have hmapcons : ((a, fa) :: items).map Prod.fst = a :: items.map Prod.fst := rfl
    rw [hmapcons] at hnodup
    have hanotin : a ∉ items.map Prod.fst := (List.nodup_cons.mp hnodup).1
    simp only [List.foldl_cons]
    rcases List.mem_cons.mp hmem with heq | hmem'
    · have h1 : n = a := congrArg Prod.fst heq
      have h2 : f = fa := congrArg Prod.snd heq
      subst h1; subst h2
      rw [lookup_foldl_ins_ne items _ n hanotin]
      exact lookup_dictInsert_self r0 n (stripRefSub f)
    · apply ih
      · exact (List.nodup_cons.mp hnodup).2
      · intro q hq
        have hqa : a ≠ q.1 := by
          intro h
          exact hanotin (h ▸ List.mem_map_of_mem Prod.fst hq)
        rw [lookup_dictInsert_ne a q.1 hqa _ r0]
        exact hnone q (List.mem_cons_of_mem _ hq)
      · exact hmem'
/-- On a successfully constructed experiment, each derived KPI's recorded
reference KPI is the slash-stripped formula (core-level lemma). -/
theorem refs_of_core (ctrl : String) (data : DataFrame) (md : Metadata)
    (report : List String) (derived : List (String × String)) (e : Experiment)
    (hok : mkExperimentCore ctrl data md report derived = .ok e)
    (hnodup : (derived.map Prod.fst).Nodup) (n f : String)
    (hmem : (n, f) ∈ derived) :
    e.referenceKpis.lookup n = some (stripRefSub f) := by
  unfold mkExperimentCore at hok
  cases hfind : (requiredColumnNames report derived).find? (fun c => !(hasCol data c)) with
  | some c => rw [hfind] at hok; cases hok
  | none =>
    rw [hfind] at hok
    have hrefs := refs_of_foldlM derived _ e hok
    rw [hrefs]
    exact lookup_foldl_ins derived [] n f hnodup (fun p _ => rfl) hmem
/-- C5 counterexample: the claim says the recorded reference KPI of the
division-shaped formula `a/b` is the numerator `a`, and that a derived KPI
with the non-division formula `a*b` records no reference KPI.  On the code
(`referenceKpis[name] = re.sub(pattern + '/', '', formula)`), `d1 = a/b`
records the *denominator* `b` (not `a`), and `d2 = a*b` records the whole
formula string `a*b` (not nothing). -/
theorem referenceKpi_numerator_cex :
    (mkExperiment "A" dfW5 [] (some ["d1", "d2"]) [("d1", "a/b"), ("d2", "a*b")]).map
        (fun e => (e.referenceKpis.lookup "d1", e.referenceKpis.lookup "d2"))
      = .ok (some "b", some "a*b")
    ∧ ("b" : String) ≠ "a" :=
  ⟨by rfl, by decide⟩
/-- C5 (corrected): what `__init__` records as a derived KPI's reference
KPI is its formula with every occurrence of an identifier directly
followed by `/` deleted — for a formula of the shape
`numerator/denominator` (identifier numerator, slash-free denominator)
that is the *denominator*, the right-hand operand; and an entry is
recorded for *every* derived KPI, whatever the formula's shape, so a
non-division derived KPI records its whole formula (and `_getWeights`
would look that string up as a column rather than default to 1.0). -/
theorem referenceKpi_denominator_amended :
    (∀ (ctrl : String) (data : DataFrame) (md : Metadata)
        (ropt : Option (List String)) (derived : List (String × String))
        (e : Experiment),
        mkExperiment ctrl data md ropt derived = .ok e →
        (derived.map Prod.fst).Nodup →
        ∀ n f, (n, f) ∈ derived → e.referenceKpis.lookup n = some (stripRefSub f))
    ∧ (∀ (c : Char) (cs den : List Char),
        c.isAlpha = true → (∀ x ∈ c :: cs, identChar x = true) → '/' ∉ den →
        stripRefSub (String.mk (c :: (cs ++ '/' :: den))) = String.mk den) := by
  constructor
  · intro ctrl data md ropt derived e hok hnodup n f hmem
    exact refs_of_core ctrl data md _ derived e hok hnodup n f hmem
  · intro c cs den hA hall hden
    exact congrArg String.mk (stripSplit c cs den hA hall hden _ (Nat.lt_succ_self _))
/-- Witness for C5's amended claim at concrete inputs: on the constructed
`e5`, `d1`'s recorded reference is the slash-strip of `a/b`, and the
slash-strip of the division shape `'a' / "b"` is the denominator `b`. -/
theorem referenceKpi_denominator_amended_wit :
    e5.referenceKpis.lookup "d1" = some (stripRefSub "a/b")
    ∧ stripRefSub (String.mk ('a' :: ([] ++ '/' :: ['b']))) = String.mk ['b'] :=
  ⟨referenceKpi_denominator_amended.1 "A" dfW5 [] (some ["d1", "d2"])
      [("d1", "a/b"), ("d2", "a*b")] e5 (by rfl) (by decide) "d1" "a/b" (by decide),
   referenceKpi_denominator_amended.2 'a' [] ['b'] (by decide) (by decide) (by decide)⟩
/-- C9 counterexample: the claim says construction *succeeds* whenever a
later derived formula references an earlier derived name, all other
referenced identifiers being raw columns.  On the code, every identifier
of every derived formula is added to the required raw columns *after* the
derived names were subtracted, so the reference `d1` in `d2`'s formula
must exist as a raw input column; here it does not, and construction
raises the missing-column error instead of succeeding. -/
theorem derived_reference_fails_cex :
    mkExperiment "A" dfW9a [] (some ["d2"]) [("d1", "a"), ("d2", "d1")] =
      .error "No column d1 provided" := by rfl
/-- C9 (corrected): identifiers in derived formulas — including names of
earlier derived KPIs — are required to exist as raw input columns, so the
claim's scenario fails construction with a missing-column error; when
every such identifier does exist as a raw column, construction succeeds,
the derived KPIs are evaluated in declaration order, and the later derived
column equals its formula evaluated over the table that already contains
the earlier derived column (which overwrote the raw column of that
name). -/
theorem derived_declaration_order_amended :
    (∀ (ctrl : String) (data : DataFrame) (md : Metadata) (report : List String)
        (n1 f1 n2 f2 : String),
        report ≠ [] → n1 ∈ findIdents f2 → hasCol data n1 = false →
        ∃ c ∈ requiredColumnNames report [(n1, f1), (n2, f2)],
          hasCol data c = false ∧
          mkExperiment ctrl data md (some report) [(n1, f1), (n2, f2)] =
            .error ("No column " ++ c ++ " provided"))
    ∧ (∀ (ctrl : String) (data : DataFrame) (md : Metadata) (report : List String)
        (n1 f1 n2 f2 : String) (v1 v2 : List Val),
        report ≠ [] →
        (∀ c ∈ requiredColumnNames report [(n1, f1), (n2, f2)], hasCol data c = true) →
        evalPyFormula f1 data = .ok v1 →
        evalPyFormula f2 (setCol data n1 (ColData.numCol v1)) = .ok v2 →
        ∃ e, mkExperiment ctrl data md (some report) [(n1, f1), (n2, f2)] = .ok e ∧
          e.data = setCol (setCol data n1 (ColData.numCol v1)) n2 (ColData.numCol v2)) := by
  constructor
  · intro ctrl data md report n1 f1 n2 f2 hrep hident habs
    have hreq : n1 ∈ requiredColumnNames report [(n1, f1), (n2, f2)] := by
      unfold requiredColumnNames
      rw [mem_uniqueFirst]
      apply List.mem_append_right
      apply List.mem_flatMap.mpr
      exact ⟨(n2, f2), by simp, hident⟩
    cases report with
    | nil => exact absurd rfl hrep
    | cons a l =>
      exact mkCore_missing ctrl data md (a :: l) [(n1, f1), (n2, f2)] ⟨n1, hreq, habs⟩
  · intro ctrl data md report n1 f1 n2 f2 v1 v2 hrep hall h1 h2
    cases report with
    | nil => exact absurd rfl hrep
    | cons a l =>
      show ∃ e, mkExperimentCore ctrl data md (a :: l) [(n1, f1), (n2, f2)] = .ok e ∧ _
      unfold mkExperimentCore
      have hfind : (requiredColumnNames (a :: l) [(n1, f1), (n2, f2)]).find?
          (fun c => !(hasCol data c)) = none :=
        List.find?_eq_none.mpr (fun x hx => by simp [hall x hx])
      rw [hfind]
      simp only [List.foldlM]
      unfold derivedStep
      rw [h1, except_bind_ok, except_bind_ok]
      rw [h2, except_bind_ok, except_bind_ok]
      exact ⟨_, rfl, rfl⟩
/-- Witness for C9's amended claim at concrete inputs: without a raw `d1`
column construction fails naming `d1`; with one, construction succeeds and
`d2 = d1` evaluates against the table whose `d1` column was just replaced
by `a`'s values (`[3]`, not the raw `[99]`). -/
theorem derived_declaration_order_amended_wit :
    (∃ c ∈ requiredColumnNames ["d2"] [("d1", "a"), ("d2", "d1")],
        hasCol dfW9a c = false ∧
        mkExperiment "A" dfW9a [] (some ["d2"]) [("d1", "a"), ("d2", "d1")] =
          .error ("No column " ++ c ++ " provided"))
    ∧ (∃ e, mkExperiment "A" dfW9 [] (some ["d2"]) [("d1", "a"), ("d2", "d1")] = .ok e ∧
        e.data = setCol (setCol dfW9 "d1" (ColData.numCol [some 3])) "d2"
          (ColData.numCol [some 3])) :=
  ⟨derived_declaration_order_amended.1 "A" dfW9a [] ["d2"] "d1" "a" "d2" "d1"
      (by decide) (by decide) (by decide),
   derived_declaration_order_amended.2 "A" dfW9 [] ["d2"] "d1" "a" "d2" "d1"
      [some 3] [some 3] (by decide) (by decide) (by rfl) (by rfl)⟩

end Expan
